import Mathlib

/-!
Verification of the Trac wiki formatter (src/formatter.py) against its
natural-language specification.  The Python code is shallowly embedded:
mutable formatter state becomes an explicit record threaded through pure
functions, output written to the sink becomes an accumulated string, and
each embedded definition mirrors one Python function, keeping its name
where Lean allows.  Stacks kept as Python lists (append / pop at the end)
are represented as Lean lists with the head playing the role of the
Python list end, so push is cons and pop is tail.
-/

namespace TracWiki

/-- The quote character (code 39), used to build the bold and italic tokens. -/
def quoteC : Char := Char.ofNat 39

/-- A run of `n` quote characters. -/
def quotes (n : Nat) : String := String.mk (List.replicate n quoteC)

/-- The double-quote character (code 34). -/
def dq : Char := Char.ofNat 34

/-- Wrap a string in double quotes, as the Python format strings do. -/
def qt (s : String) : String := String.mk (dq :: s.toList ++ [dq])

/-- Concatenation of a list of strings, in order. -/
def strJoin (l : List String) : String := l.foldl (fun a b => a ++ b) ""

/-! ## Toggle-tag stack (Formatter.close_tag / open_tag / simple_tag_handler)

A frame is an (open tag, close tag) pair; the stack head is the most
recently opened frame (the end of the Python list `self._open_tags`). -/

/-- An open/close tag pair, one currently active span-level markup region. -/
abbrev Frame := String × String

/-- Loop body of `Formatter.close_tag` (formatter.py lines 234-243).
`visited` holds the frames already passed over, in visit order (top first).
On finding a frame whose close tag is `tag`: the emitted text is the close
tags of the visited frames (top to bottom), then the found close tag, then
the open tags of the visited frames re-emitted bottom to top; the found
frame is deleted and the visited frames stay.  If no frame matches, the
close tags of every frame are emitted and the stack is left unchanged
(the Python loop runs out without the `del`). -/
def closeTagGo (tag : String) (visited : List Frame) : List Frame → String × List Frame
  | [] => (strJoin (visited.map (fun f => f.2)), visited)
  | f :: rest =>
    if f.2 = tag then
      (strJoin (visited.map (fun g => g.2)) ++ f.2 ++
         strJoin (visited.reverse.map (fun g => g.1)),
       visited ++ rest)
    else closeTagGo tag (visited ++ [f]) rest

/-- `Formatter.close_tag`: returns the emitted text and the new stack. -/
def close_tag (stack : List Frame) (tag : String) : String × List Frame :=
  closeTagGo tag [] stack

/-- `Formatter.tag_open_p`: do we currently have any open tag with this end tag
(the Python membership test is on the whole (open, close) pair). -/
def tag_open_p (stack : List Frame) (f : Frame) : Bool := stack.contains f

/-- `Formatter.open_tag`: push a frame. -/
def open_tag (stack : List Frame) (f : Frame) : List Frame := f :: stack

/-- `Formatter.simple_tag_handler`: generic handler for simple binary style
tags; close the pair if it is open somewhere on the stack, else open it. -/
def simple_tag_handler (stack : List Frame) (openT closeT : String) :
    String × List Frame :=
  if tag_open_p stack (openT, closeT) then close_tag stack closeT
  else (openT, open_tag stack (openT, closeT))

/-- The italic frame. -/
def italicF : Frame := ("<i>", "</i>")

/-- The bold frame. -/
def boldF : Frame := ("<strong>", "</strong>")

/-- `Formatter._bold_formatter` (state part; the match arguments are unused). -/
def bold_formatter (stack : List Frame) : String × List Frame :=
  simple_tag_handler stack "<strong>" "</strong>"

/-- `Formatter._italic_formatter`. -/
def italic_formatter (stack : List Frame) : String × List Frame :=
  simple_tag_handler stack "<i>" "</i>"

/-- `Formatter._bolditalic_formatter` (formatter.py lines 256-267): if an
italic frame is open, emit its close tag and run `close_tag` discarding the
text that `close_tag` returns (the source drops that return value); then run
the bold handler; if no italic frame was open, open one afterwards. -/
def bolditalic_formatter (stack : List Frame) : String × List Frame :=
  let italicOpen := tag_open_p stack italicF
  let st1 := if italicOpen then (close_tag stack "</i>").2 else stack
  let s1 : String := if italicOpen then "</i>" else ""
  let p := bold_formatter st1
  if italicOpen then (s1 ++ p.1, p.2)
  else (s1 ++ p.1 ++ "<i>", open_tag p.2 italicF)

/-! ## Remaining font-style handlers (formatter.py lines 275-298) -/

/-- The underline frame used by `Formatter._underline_formatter`. -/
def underlineF : Frame := ("<span class=" ++ qt "underline" ++ ">", "</span>")

/-- The strike-through frame used by `Formatter._strike_formatter`. -/
def strikeF : Frame := ("<del>", "</del>")

/-- The subscript frame used by `Formatter._subscript_formatter`. -/
def subF : Frame := ("<sub>", "</sub>")

/-- The superscript frame used by `Formatter._superscript_formatter`. -/
def supF : Frame := ("<sup>", "</sup>")

/-- The escape character. -/
def excl : Char := Char.ofNat 33

/-- `Formatter._underline_formatter`: its own leading-escape check (dead code
behind the dispatcher of `Formatter.replace`, kept for faithfulness), else a
simple toggle. -/
def underline_formatter (stack : List Frame) (m : String) : String × List Frame :=
  if m.toList.head? = some excl then (String.mk m.toList.tail, stack)
  else simple_tag_handler stack underlineF.1 underlineF.2

/-- `Formatter._strike_formatter`. -/
def strike_formatter (stack : List Frame) (m : String) : String × List Frame :=
  if m.toList.head? = some excl then (String.mk m.toList.tail, stack)
  else simple_tag_handler stack strikeF.1 strikeF.2

/-- `Formatter._subscript_formatter`. -/
def subscript_formatter (stack : List Frame) (m : String) : String × List Frame :=
  if m.toList.head? = some excl then (String.mk m.toList.tail, stack)
  else simple_tag_handler stack subF.1 subF.2

/-- `Formatter._superscript_formatter`. -/
def superscript_formatter (stack : List Frame) (m : String) : String × List Frame :=
  if m.toList.head? = some excl then (String.mk m.toList.tail, stack)
  else simple_tag_handler stack supF.1 supF.2

/-- Modelled from the spec: `trac.util.markup.escape` lives outside src/;
it is the standard HTML escaping of the markup-significant characters. -/
def escapeChar (c : Char) : String :=
  if c = '&' then "&amp;"
  else if c = '<' then "&lt;"
  else if c = '>' then "&gt;"
  else if c = dq then "&#34;"
  else String.mk [c]

/-- HTML-escape a string (see `escapeChar`). -/
def escapeHtml (t : String) : String := strJoin (t.toList.map escapeChar)

/-! ## The inline rule alternation and the dispatcher (Formatter._pre_rules,
Formatter._post_rules, Formatter.replace)

The combined matcher joins `_pre_rules`, the extension rules of the
syntax providers (none in a bare wiki system) and `_post_rules` into one
alternation: at each position the first alternative that matches wins and
scanning is leftmost-first, which the scanner below reproduces.  Each
rule pattern is embedded as its own matcher function mirroring the
pattern source; the greedy runs, the ordered alternatives inside a
pattern, and the one-step backtracking of the optional constructs are
spelled out per rule.  The embedded table carries, in source order, the
whole of `_pre_rules` and the shref, lhref and macro rules of
`_post_rules`.  The remaining `_post_rules` are the line-anchored rules
(citation, heading, list, definition, indent), which the alternation can
only ever fire at the start of the line and which are embedded separately
below as `headingMatch` and `listMatch`, and the `htmlescape` and
table-cell rules, whose trigger characters the processed inputs do not
contain. -/

/-- The left brace character. -/
def lbrace : Char := Char.ofNat 123

/-- The right brace character. -/
def rbrace : Char := Char.ofNat 125

/-- The backtick character, the inline-code delimiter `INLINE_TOKEN`. -/
def btick : Char := Char.ofNat 96

/-- The `STARTBLOCK` token: three left braces. -/
def startBlock : List Char := [lbrace, lbrace, lbrace]

/-- The `ENDBLOCK` token: three right braces. -/
def endBlock : List Char := [rbrace, rbrace, rbrace]

/-- A word character as in the regex word class over ASCII (the source
compiles with the Unicode flag; the processed inputs stay in ASCII). -/
def wordChar (c : Char) : Bool := c.isAlphanum || c = '_'

/-- The `LINK_SCHEME` character class of the source. -/
def schemeChar (c : Char) : Bool := wordChar c || c = '.' || c = '+' || c = '-'

/-- The `SHREF_TARGET_FIRST` character class. -/
def shrefFirst (c : Char) : Bool :=
  wordChar c || c = '/' || c = '?' || c = '!' || c = '#' || c = '@'

/-- The `SHREF_TARGET_LAST` character class. -/
def shrefLast (c : Char) : Bool := c.isAlpha || c.isDigit || c = '/' || c = '='

/-- The macro-name character class of the macro rule. -/
def macroNameChar (c : Char) : Bool := wordChar c || c = '/' || c = '+' || c = '-'

/-- The name of the rule group that fired. -/
inductive RuleName
  | bolditalic
  | bold
  | italic
  | underline
  | strike
  | subscript
  | superscript
  | inlinecode
  | inlinecode2
  | shref
  | lhref
  | macroCall
deriving DecidableEq, Repr

/-- Split a character list at the first occurrence of a nonempty
separator: the shortest-prefix split that a lazy repetition followed by
the separator performs. -/
def splitFirst (sep : List Char) : List Char → Option (List Char × List Char)
  | [] => none
  | c :: rest =>
    if sep.isPrefixOf (c :: rest) then some ([], (c :: rest).drop sep.length)
    else
      match splitFirst sep rest with
      | some p => some (c :: p.1, p.2)
      | none => none

/-- Matcher for a literal token rule, with the greedy optional escape
prefix tried first when the pattern source carries it.  Returns the
matched text, no capture group, and the rest. -/
def litTokMatch (esc : Bool) (tok : List Char) (cs : List Char) :
    Option (List Char × Option (List Char) × List Char) :=
  if esc = true ∧ cs.take (tok.length + 1) = excl :: tok then
    some (excl :: tok, none, cs.drop (tok.length + 1))
  else if cs.take tok.length = tok then
    some (tok, none, cs.drop tok.length)
  else none

/-- Matcher for the two inline-code rules: the optional escape prefix,
an opening delimiter, a lazy content run, and the closing delimiter at
its first occurrence.  The content capture group is returned. -/
def delimMatch (opener closer : List Char) (cs : List Char) :
    Option (List Char × Option (List Char) × List Char) :=
  let tryAt := fun (pre cs2 : List Char) =>
    if opener.isPrefixOf cs2 then
      match splitFirst closer (cs2.drop opener.length) with
      | some p => some (pre ++ opener ++ p.1 ++ closer, some p.1, p.2)
      | none => none
    else none
  match cs with
  | c :: rest =>
    if c = excl then
      match tryAt [excl] rest with
      | some r => some r
      | none => tryAt [] cs
    else tryAt [] cs
  | [] => none

/-- Length of the longest run of `SHREF_TARGET_MIDDLE` matches: either a
pipe whose lookahead sees a following character that is neither a pipe
nor whitespace, or any character outside pipe, angle brackets and
whitespace. -/
def midChainLen : List Char → Nat
  | [] => 0
  | c :: rest =>
    if c = '|' then
      match rest with
      | d :: _ => if d ≠ '|' ∧ ¬ d.isWhitespace then 1 + midChainLen rest else 0
      | [] => 0
    else if c ≠ '<' ∧ c ≠ '>' ∧ ¬ c.isWhitespace then 1 + midChainLen rest
    else 0

/-- Backtracking of the greedy middle run against the final
`SHREF_TARGET_LAST` character: try the longest middle run first and step
down until the next character is a valid last character. -/
def midLastSearch (l : List Char) : Nat → Option Nat
  | 0 =>
    match l.get? 0 with
    | some c => if shrefLast c then some 1 else none
    | none => none
  | k + 1 =>
    match l.get? (k + 1) with
    | some c => if shrefLast c then some (k + 2) else midLastSearch l k
    | none => midLastSearch l k

/-- Length of a `QUOTED_STRING` alternative with the given quote
character: the quote, a nonempty run without it, the quote again. -/
def quotedLen (q : Char) (l : List Char) : Option Nat :=
  match l with
  | c :: rest =>
    if c = q then
      let run := rest.takeWhile (fun d => d ≠ q)
      if 0 < run.length ∧ rest.get? run.length = some q then some (run.length + 2)
      else none
    else none
  | [] => none

/-- Length of the shref target: the quoted alternatives in source order,
else a first character followed by an optional greedy middle run closed
by a last character (empty option when no such closure exists). -/
def stgtLen (l : List Char) : Option Nat :=
  quotedLen quoteC l <|> quotedLen dq l <|>
    (match l with
     | c :: rest =>
       if shrefFirst c then
         match midLastSearch rest (midChainLen rest) with
         | some n => some (1 + n)
         | none => some 1
       else none
     | [] => none)

/-- Core of the shref rule: a nonempty scheme run, a colon, and a target. -/
def shrefCore (cs : List Char) : Option Nat :=
  let sns := cs.takeWhile schemeChar
  if 0 < sns.length ∧ cs.get? sns.length = some ':' then
    match stgtLen (cs.drop (sns.length + 1)) with
    | some n => some (sns.length + 1 + n)
    | none => none
  else none

/-- Wrap a core matcher in the greedy optional escape prefix: with a
leading escape character the escaped parse is tried first and the parse
without it second, as the regex optional quantifier does. -/
def escWrap (core : List Char → Option Nat) (cs : List Char) :
    Option (List Char × Option (List Char) × List Char) :=
  match cs with
  | c :: rest =>
    if c = excl then
      match core rest with
      | some n => some (c :: rest.take n, none, rest.drop n)
      | none =>
        match core cs with
        | some n => some (cs.take n, none, cs.drop n)
        | none => none
    else
      match core cs with
      | some n => some (cs.take n, none, cs.drop n)
      | none => none
  | [] => none

/-- Matcher for the shref rule. -/
def shrefMatch (cs : List Char) :
    Option (List Char × Option (List Char) × List Char) :=
  escWrap shrefCore cs

/-- Core of the lhref rule: an opening bracket; then either a scheme,
colon and target (a quoted alternative or a greedy run without brackets
and whitespace, possibly empty) or a relative target; then the optional
whitespace-plus-label group; then the closing bracket.  A quoted label
can only begin at the maximal whitespace split, since at any shorter
split the label would begin with whitespace; the unquoted label class
excludes only the closing bracket, so the group matches exactly when the
run up to the closing bracket is at least two characters long and starts
with whitespace. -/
def lhrefCore (cs : List Char) : Option Nat :=
  match cs with
  | c :: rest =>
    if c = '[' then
      let inner : Option Nat :=
        (let lns := rest.takeWhile schemeChar
         if 0 < lns.length ∧ rest.get? lns.length = some ':' then
           let after := rest.drop (lns.length + 1)
           let tl :=
             match quotedLen quoteC after <|> quotedLen dq after with
             | some n => n
             | none =>
               (after.takeWhile (fun d => d ≠ ']' ∧ ¬ d.isWhitespace)).length
           some (lns.length + 1 + tl)
         else none)
        <|>
        (match rest with
         | r :: rr =>
           if r = '/' ∨ r = '.' then
             some (1 + (rr.takeWhile
               (fun d => ¬ d.isWhitespace ∧ d ≠ '[' ∧ d ≠ ']')).length)
           else none
         | [] => none)
      match inner with
      | some n =>
        let after2 := rest.drop n
        let wsn := (after2.takeWhile (fun d => d.isWhitespace)).length
        if 0 < wsn then
          match
            (match quotedLen quoteC (after2.drop wsn) <|>
                quotedLen dq (after2.drop wsn) with
             | some m =>
               if after2.get? (wsn + m) = some ']' then some (wsn + m) else none
             | none => none) with
          | some t => some (1 + n + t + 1)
          | none =>
            let run := after2.takeWhile (fun d => d ≠ ']')
            if 2 ≤ run.length ∧ after2.get? run.length = some ']' then
              some (1 + n + run.length + 1)
            else none
        else if after2.head? = some ']' then some (1 + n + 1)
        else none
      | none => none
    else none
  | [] => none

/-- Matcher for the lhref rule. -/
def lhrefMatch (cs : List Char) :
    Option (List Char × Option (List Char) × List Char) :=
  escWrap lhrefCore cs

/-- Core of the macro rule: two opening brackets, a nonempty name run,
then either the two closing brackets or a parenthesised lazy argument
run closed by the first occurrence of a closing parenthesis followed by
the two closing brackets, the alternatives tried in that order. -/
def macroCore (cs : List Char) : Option Nat :=
  match cs with
  | a :: b :: rest =>
    if a = '[' ∧ b = '[' then
      let nm := rest.takeWhile macroNameChar
      if 0 < nm.length then
        let after := rest.drop nm.length
        if after.take 2 = [']', ']'] then some (2 + nm.length + 2)
        else
          match after with
          | p :: args0 =>
            if p = '(' then
              match splitFirst [')', ']', ']'] args0 with
              | some q => some (2 + nm.length + 1 + q.1.length + 3)
              | none => none
            else none
          | [] => none
      else none
    else none
  | _ => none

/-- Matcher for the macro rule. -/
def macroMatch (cs : List Char) :
    Option (List Char × Option (List Char) × List Char) :=
  escWrap macroCore cs

/-- The embedded combined alternation, in source order: the whole of
`_pre_rules` (lines 167-179) followed by the shref, lhref and macro rules
of `_post_rules` (lines 185-194). -/
def inlineRules :
    List (RuleName × (List Char → Option (List Char × Option (List Char) × List Char))) :=
  [ (.bolditalic, litTokMatch false (quotes 5).toList),
    (.bold, litTokMatch false (quotes 3).toList),
    (.italic, litTokMatch false (quotes 2).toList),
    (.underline, litTokMatch true "__".toList),
    (.strike, litTokMatch true "~~".toList),
    (.subscript, litTokMatch true ",,".toList),
    (.superscript, litTokMatch true "^".toList),
    (.inlinecode, delimMatch startBlock endBlock),
    (.inlinecode2, delimMatch [btick] [btick]),
    (.shref, shrefMatch),
    (.lhref, lhrefMatch),
    (.macroCall, macroMatch) ]

/-- First rule of the table that matches at this position. -/
def findRule
    (rules : List (RuleName × (List Char → Option (List Char × Option (List Char) × List Char))))
    (cs : List Char) :
    Option (RuleName × List Char × Option (List Char) × List Char) :=
  match rules with
  | [] => none
  | (name, m) :: rest =>
    match m cs with
    | some r => some (name, r)
    | none => findRule rest cs

/-- `Formatter.replace` (lines 692-703): if the captured text begins with
the escape character the handler is skipped and the text minus that
character is returned with the toggle stack untouched; otherwise the
handler named by the rule group runs.  The font-style handlers act on
the toggle stack; the inline-code handlers emit the escaped content in a
tt element; the link and macro handlers resolve against collaborators
outside this module and never touch the toggle stack, so they are
abstracted as the `ext` argument. -/
def replaceTok (ext : RuleName → String → String) (stack : List Frame)
    (r : RuleName) (m : List Char) (content : Option (List Char)) :
    String × List Frame :=
  match m with
  | [] => ("", stack)
  | c :: rest =>
    if c = excl then (String.mk rest, stack)
    else
      match r with
      | .bolditalic => bolditalic_formatter stack
      | .bold => bold_formatter stack
      | .italic => italic_formatter stack
      | .underline => underline_formatter stack (String.mk m)
      | .strike => strike_formatter stack (String.mk m)
      | .subscript => subscript_formatter stack (String.mk m)
      | .superscript => superscript_formatter stack (String.mk m)
      | .inlinecode =>
        ("<tt>" ++ escapeHtml (String.mk (content.getD [])) ++ "</tt>", stack)
      | .inlinecode2 =>
        ("<tt>" ++ escapeHtml (String.mk (content.getD [])) ++ "</tt>", stack)
      | .shref => (ext .shref (String.mk m), stack)
      | .lhref => (ext .lhref (String.mk m), stack)
      | .macroCall => (ext .macroCall (String.mk m), stack)

/-- One `re.sub` pass of the combined alternation over a line: at each
position take the first matching rule, dispatch it through the replace
mechanism, and continue after the match; unmatched characters are copied.
The fuel argument bounds the number of steps; every step consumes at
least one character, so fuel equal to the length of the line is enough. -/
def subLineGo (ext : RuleName → String → String)
    (rules : List (RuleName × (List Char → Option (List Char × Option (List Char) × List Char)))) :
    Nat → List Frame → String → List Char → String × List Frame
  | 0, stack, out, rest => (out ++ String.mk rest, stack)
  | fuel + 1, stack, out, cs =>
    match cs with
    | [] => (out, stack)
    | c :: rest =>
      match findRule rules cs with
      | some (r, m, content, after) =>
        let p := replaceTok ext stack r m content
        subLineGo ext rules fuel p.2 (out ++ p.1) after
      | none => subLineGo ext rules fuel stack (out.push c) rest

/-- Apply the embedded combined alternation over a whole line. -/
def subLine (ext : RuleName → String → String) (stack : List Frame)
    (s : String) : String × List Frame :=
  subLineGo ext inlineRules s.toList.length stack "" s.toList

/-! ### The line-anchored heading and list rules

These two `_post_rules` patterns are anchored at the start of the line;
in the combined alternation they can fire only at position zero, so they
are embedded as standalone line matchers. -/

/-- The heading rule (line 196): optional leading whitespace, a run of
equals signs (the depth group), a whitespace character, any content, a
whitespace character, the same run of equals signs by backreference, and
optional trailing whitespace to the end of the line.  The greedy depth
run is followed by mandatory whitespace, and the backreference pins the
closing run: after stripping trailing whitespace the line must end in
exactly the depth run, preceded by whitespace.  Returns the depth group
length; the match spans the whole line. -/
def headingMatch (l : List Char) : Option Nat :=
  let rest := l.dropWhile Char.isWhitespace
  let eqs := rest.takeWhile (fun c => c == '=')
  if eqs.length = 0 then none
  else
    match rest.drop eqs.length with
    | c :: rest2 =>
      if c.isWhitespace then
        let mid := (rest2.reverse.dropWhile Char.isWhitespace).reverse
        let run := (mid.reverse.takeWhile (fun c => c == '=')).length
        let prev : Bool :=
          match mid.get? (mid.length - run - 1) with
          | some d => d.isWhitespace
          | none => false
        if (run == eqs.length) && decide (run < mid.length) && prev then
          some eqs.length
        else none
      else none
    | [] => none

/-- The digits alternative of the list-marker group: a nonempty greedy
digit run followed by a period. -/
def digitsAlt (l : List Char) : Option (List Char) :=
  let ds := l.takeWhile Char.isDigit
  if 0 < ds.length ∧ l.get? ds.length = some '.' then some (ds ++ ['.'])
  else none

/-- The single-letter alternative of the list-marker group. -/
def letterAlt (l : List Char) : Option (List Char) :=
  match l with
  | c :: d :: _ => if c.isAlpha ∧ d = '.' then some [c, '.'] else none
  | _ => none

/-- A small-roman-numeral character. -/
def romanChar (c : Char) : Bool :=
  c = 'i' || c = 'v' || c = 'x' || c = 'I' || c = 'V' || c = 'X'

/-- Backtracking for the bounded greedy roman run against the following
period: try the longest run first and step down to one character. -/
def romanDotSearch (l : List Char) : Nat → Option (List Char)
  | 0 => none
  | j + 1 =>
    if l.get? (j + 1) = some '.' then some (l.take (j + 1) ++ ['.'])
    else romanDotSearch l j

/-- The roman alternative of the list-marker group: one to five roman
characters followed by a period, the longest run tried first. -/
def romanAlt (l : List Char) : Option (List Char) :=
  romanDotSearch l (min 5 (l.takeWhile romanChar).length)

/-- The list-marker group of the list rule (line 197), its alternatives
in source order: a dash or star, a digit run with period, a single letter
with period, or a short roman numeral with period. -/
def markerMatch (l : List Char) : Option (List Char) :=
  match l with
  | c :: _ =>
    if c = '-' ∨ c = '*' then some [c]
    else digitsAlt l <|> letterAlt l <|> romanAlt l
  | [] => none

/-- The list rule (line 197): nonempty leading whitespace (the depth
group), a list marker, and a space.  Returns the matched prefix. -/
def listMatch (l : List Char) : Option (List Char) :=
  let ws := l.takeWhile Char.isWhitespace
  if ws.length = 0 then none
  else
    match markerMatch (l.drop ws.length) with
    | some mk =>
      if l.get? (ws.length + mk.length) = some ' ' then some (ws ++ mk ++ [' '])
      else none
    | none => none

/-- The toggle frames the font-style handlers can put on the stack. -/
def knownFrames : List Frame := [boldF, italicF, underlineF, strikeF, subF, supF]

/-- A toggle stack produced by the font-style handlers: no duplicate frames
and every frame one of the known pairs (their close tags are pairwise
distinct). -/
def WfToggleStack (st : List Frame) : Prop :=
  st.Nodup ∧ ∀ f ∈ st, f ∈ knownFrames

/-! ## Block state machine (Formatter.format and its close/open helpers)

The per-pass mutable attributes of `Formatter` become one state record.
`self.out.write(...)` becomes appending to the `out` field.  `os.linesep`
is the newline on the target platform.  The `_list_stack` frames are
(type, depth) pairs whose type can be the Python `None`; stacks again keep
the Python list end at the Lean list head. -/

/-- The platform line separator. -/
def lineSep : String := "\n"

/-- The per-pass state of a `Formatter` instance, plus the `_anchors`
attribute which is initialised in `__init__` rather than per pass. -/
structure FState where
  open_tags : List Frame := []
  list_stack : List (Option String × Nat) := []
  quote_stack : List Nat := []
  tabstops : List Nat := []
  in_code_block : Nat := 0
  in_table : Bool := false
  in_def_list : Bool := false
  in_table_row : Bool := false
  in_table_cell : Bool := false
  paragraph_open : Bool := false
  in_list_item : Bool := false
  in_quote : Bool := false
  anchors : List String := []
  out : String := ""
deriving DecidableEq, Repr

/-- Write to the output sink. -/
def wr (s : FState) (t : String) : FState := { s with out := s.out ++ t }

/-- Python percent-formatting of an optional string (`%s` of `None` is
the text `None`). -/
def optStr : Option String → String
  | some t => t
  | none => "None"

/-- Python truthiness of an optional string. -/
def optTruthy : Option String → Bool
  | some t => !t.isEmpty
  | none => false

/-- `Formatter._set_tab` (lines 464-477): keep the tabstops strictly
smaller than the new depth, then append the new depth. -/
def set_tab (s : FState) (depth : Nat) : FState :=
  { s with tabstops := s.tabstops.takeWhile (fun ts => decide (ts < depth)) ++ [depth] }

/-- `Formatter.close_table_row` (lines 663-670). -/
def close_table_row (s : FState) : FState :=
  if s.in_table_row then
    let s1 := { s with in_table_row := false }
    let s2 :=
      if s1.in_table_cell then wr { s1 with in_table_cell := false } "</td>" else s1
    wr s2 "</tr>"
  else s

/-- `Formatter.close_table` (lines 672-676). -/
def close_table (s : FState) : FState :=
  if s.in_table then
    let s1 := close_table_row s
    { wr s1 ("</table>" ++ lineSep) with in_table := false }
  else s

/-- `Formatter.open_paragraph` (lines 680-683). -/
def open_paragraph (s : FState) : FState :=
  if s.paragraph_open then s
  else { wr s ("<p>" ++ lineSep) with paragraph_open := true }

/-- `Formatter.close_paragraph` (lines 685-690): pop every open toggle
frame writing its close tag (top first), then close the paragraph. -/
def close_paragraph (s : FState) : FState :=
  if s.paragraph_open then
    let s1 := wr s (strJoin (s.open_tags.map (fun f => f.2)))
    { wr { s1 with open_tags := [] } ("</p>" ++ lineSep) with paragraph_open := false }
  else s

/-- `Formatter.close_def_list` (lines 555-558). -/
def close_def_list (s : FState) : FState :=
  let s1 := if s.in_def_list then wr s ("</dd></dl>" ++ lineSep) else s
  { s1 with in_def_list := false }

/-- One round of the `close_quote` local function of `_set_quote_depth`
(lines 606-610): close table, close paragraph, pop one quote frame, emit
the closing tag. -/
def close_quote (s : FState) : FState :=
  let s1 := close_table s
  let s2 := close_paragraph s1
  wr { s2 with quote_stack := s2.quote_stack.tail } ("</blockquote>" ++ lineSep)

/-- The closing while-loop of `_set_quote_depth` (lines 620-624); the list
argument is the quote stack itself, traversed structurally: each round
pops exactly the head, so passing the current stack as the recursion
spine is the Python loop re-reading `self._quote_stack[-1]`. -/
def closeQuotesToGo (depth : Nat) (s : FState) : List Nat → FState
  | [] => s
  | off :: rest =>
    if depth ≥ off then s
    else closeQuotesToGo depth (close_quote s) rest

/-- Close quote frames strictly deeper than the target depth. -/
def closeQuotesTo (depth : Nat) (s : FState) : FState :=
  closeQuotesToGo depth s s.quote_stack

/-- `Formatter.close_indentation` is `_set_quote_depth(0)`.  Over natural
depths the opening branch (`0 > quote_depth`) and the depth-positive
post-adjustments of `_set_quote_depth` are vacuous, so the call is the
closing while-loop; `set_quote_depth_zero` below checks this
specialisation against the full `set_quote_depth`. -/
def close_indentation (s : FState) : FState := closeQuotesTo 0 s

/-- The closing while-loop of `_set_list_depth` (lines 524-528), as a pure
function of the list stack: pop frames strictly deeper than the target,
emitting a closing tag for each (the `close_list` local function). -/
def closeListsLoop (depth : Nat) :
    List (Option String × Nat) → List (Option String × Nat) × String
  | [] => ([], "")
  | (tp, off) :: rest =>
    if depth ≥ off then ((tp, off) :: rest, "")
    else
      let p := closeListsLoop depth rest
      (p.1, "</li></" ++ optStr tp ++ ">" ++ p.2)

/-- The `open_list` local function of `_set_list_depth` (lines 507-515).
With a `None` list type the Python string concatenation would raise; that
branch is unreachable from the formatter (every call that can open a list
passes a concrete type), and the embedding renders the type via `optStr`. -/
def open_list (s : FState) (depth : Nat) (new_type list_class start : Option String) :
    FState :=
  let s1 := close_table s
  let s2 := close_paragraph s1
  let s3 := close_indentation s2
  let s4 := { s3 with list_stack := (new_type, depth) :: s3.list_stack }
  let s5 := set_tab s4 depth
  let classAttr :=
    match list_class with
    | some c => if c.isEmpty then "" else " class=" ++ qt c
    | none => ""
  let startAttr :=
    match start with
    | some c => if c.isEmpty then "" else " start=" ++ qt c
    | none => ""
  wr s5 ("<" ++ optStr new_type ++ classAttr ++ startAttr ++ "><li>")

/-- `Formatter._set_list_depth` (lines 506-540). -/
def set_list_depth (s : FState) (depth : Nat)
    (new_type list_class start : Option String) : FState :=
  if depth > (s.list_stack.headD (none, 0)).2 then
    open_list s depth new_type list_class start
  else
    let p := closeListsLoop depth s.list_stack
    let s1 := wr { s with list_stack := p.1 } p.2
    if depth > 0 then
      match s1.list_stack with
      | (old_type, old_offset) :: rest =>
        if optTruthy new_type ∧ old_type ≠ new_type then
          let s2 := wr { s1 with list_stack := rest }
            ("</li></" ++ optStr old_type ++ ">")
          open_list s2 depth new_type list_class start
        else
          let s2 :=
            if old_offset ≠ depth then { s1 with list_stack := (old_type, depth) :: rest }
            else s1
          wr s2 "</li><li>"
      | [] => open_list s1 depth new_type list_class start
    else s1

/-- `Formatter.close_list` (lines 542-543). -/
def close_list (s : FState) : FState := set_list_depth s 0 none none none

/-- The `open_one_quote` local function of `_set_quote_depth`
(lines 596-600). -/
def open_one_quote (citation : Bool) (d : Nat) (s : FState) : FState :=
  let s1 := { s with quote_stack := d :: s.quote_stack }
  let s2 := set_tab s1 d
  wr s2 ("<blockquote" ++ (if citation then " class=" ++ qt "citation" else "") ++
    ">" ++ lineSep)

/-- The `open_quote` local function of `_set_quote_depth` (lines 592-605);
`quote_depth` is the value captured before the branch runs. -/
def open_quote (citation : Bool) (quote_depth depth : Nat) (s : FState) : FState :=
  let s1 := close_table s
  let s2 := close_paragraph s1
  let s3 := close_list s2
  if citation then
    (List.range' (quote_depth + 1) (depth - quote_depth)).foldl
      (fun acc d => open_one_quote true d acc) s3
  else open_one_quote citation depth s3

/-- `Formatter._set_quote_depth` (lines 591-633).  In the opening branch
the loop iterates over a snapshot of the tabstops taken after the
`_set_tab` call (reversed then popped from the end, hence in ascending
order), while the state keeps evolving. -/
def set_quote_depth (citation : Bool) (s : FState) (depth : Nat) : FState :=
  let quote_depth := s.quote_stack.headD 0
  let s1 :=
    if depth > quote_depth then
      let s2 := set_tab s depth
      s2.tabstops.foldl
        (fun acc tab =>
          if tab > quote_depth then open_quote citation quote_depth tab acc else acc)
        s2
    else
      let s2 := closeQuotesTo depth s
      if citation = false ∧ depth > 0 then
        match s2.quote_stack with
        | old :: rest =>
          if old ≠ depth then { s2 with quote_stack := depth :: rest } else s2
        | [] => open_quote citation quote_depth depth s2
      else s2
  if depth > 0 then { s1 with in_quote := true } else s1

/-- The blank-line branch of `Formatter.format` (lines 770-775): close
paragraph, quote nesting, list nesting and definition-list state. -/
def blank_line (s : FState) : FState :=
  close_def_list (close_list (close_indentation (close_paragraph s)))

/-- The state initialisation at the top of `Formatter.format`
(lines 741-753): a fresh output sink is installed and the open-tag,
list, quote and tabstop stacks plus the block flags are reset.  The
`anchors` attribute is not among them: it is initialised in
`Formatter.__init__` (line 216) and survives across `format` calls. -/
def format_reset (s : FState) : FState :=
  { s with out := "", open_tags := [], list_stack := [], quote_stack := [],
           tabstops := [], in_code_block := 0, in_table := false,
           in_def_list := false, in_table_row := false, in_table_cell := false,
           paragraph_open := false }

/-! ## Heading anchors (Formatter._heading_formatter, _anchor_re) -/

/-- Decimal digit characters of a positive number, most significant first;
the fuel argument only drives the recursion and any value at least the
number of digits is enough. -/
def natStrGo : Nat → Nat → List Char
  | 0, _ => []
  | fuel + 1, n => if n = 0 then [] else natStrGo fuel (n / 10) ++ [Nat.digitChar (n % 10)]

/-- The decimal representation of a natural number: the embedding of the
Python `str(i)` applied to the loop counters and heading depths. -/
def natStr (n : Nat) : String :=
  if n = 0 then "0" else String.mk (natStrGo n n)

/-- Inverse of `Nat.digitChar` on decimal digits, used only in proofs. -/
def digitCharInv (c : Char) : Nat :=
  if c = '1' then 1 else if c = '2' then 2 else if c = '3' then 3
  else if c = '4' then 4 else if c = '5' then 5 else if c = '6' then 6
  else if c = '7' then 7 else if c = '8' then 8 else if c = '9' then 9 else 0

/-- Evaluate a big-endian decimal digit string, used only in proofs. -/
def evalDigits (l : List Char) : Nat :=
  l.foldl (fun acc c => acc * 10 + digitCharInv c) 0

/-- The character class kept by `Formatter._anchor_re` (line 206): the
pattern removes runs of characters outside the class consisting of the
word characters (letters, digits and the underscore) and the character
range from the period to the colon (which spans period, slash, the digits
and the colon; the hyphen lies below the range and is removed).  The
source compiles the pattern with the Unicode flag; the embedding reads
word characters in the ASCII range, which the processed inputs stay in. -/
def anchorKeep (c : Char) : Bool :=
  c.isAlphanum || c = '_' || ('.' ≤ c && c ≤ ':')

/-- The character class the specification claims for anchor ids: letters,
digits, period, hyphen and colon.  This is the claim-side comparator used
to settle the refinement question; the class the code compiles is
`anchorKeep`. -/
def claimKeep (c : Char) : Bool :=
  c.isAlphanum || c = '.' || c = '-' || c = ':'

/-- Does the string start with a letter (`anchor[0].isalpha()`). -/
def headAlpha (s : String) : Bool :=
  match s.toList with
  | [] => false
  | c :: _ => c.isAlpha

/-- The collision loop of `_heading_formatter` (lines 454-458): starting
from the base anchor with counter 1, append the counter while the current
candidate is already allocated.  The fuel bounds the rounds; one round per
allocated anchor plus one is always enough to reach a free candidate
(`anchorLoop_finds_free` below), so the bounded loop agrees with the
unbounded source loop. -/
def anchorLoop (anchors : List String) (base : String) : Nat → Nat → String → String
  | 0, _, cur => cur
  | fuel + 1, i, cur =>
    if cur ∈ anchors then anchorLoop anchors base fuel (i + 1) (base ++ natStr i)
    else cur

/-- The base anchor of `_heading_formatter` (lines 450-453): strip the
characters outside the anchor class from the tag-stripped rendered
heading text and prefix `a` when the result is empty or does not start
with a letter. -/
def anchor_base (sans_markup : String) : String :=
  let stripped := String.mk (sans_markup.toList.filter anchorKeep)
  if stripped.toList = [] ∨ headAlpha stripped = false then "a" ++ stripped
  else stripped

/-- The anchor-id derivation of `_heading_formatter` (lines 450-459) from
the tag-stripped rendered heading text: derive the base anchor,
disambiguate against the already-allocated anchors, and record the
result. -/
def alloc_anchor (anchors : List String) (sans_markup : String) : String × List String :=
  let base := anchor_base sans_markup
  let anchor := anchorLoop anchors base (anchors.length + 1) 1 base
  (anchor, anchors ++ [anchor])

/-- `Formatter._heading_formatter` (lines 436-460) given the already
rendered one-liner heading text and its tag-stripped form (the rendering
itself delegates to the one-liner variant): close the open block
constructs, allocate the anchor id and emit the heading element. -/
def heading_emit (s : FState) (hdepth : Nat) (text sans_markup : String) : FState :=
  let s1 := close_table s
  let s2 := close_paragraph s1
  let s3 := close_indentation s2
  let s4 := close_list s3
  let s5 := close_def_list s4
  let depth := min hdepth 5
  let p := alloc_anchor s5.anchors sans_markup
  wr { s5 with anchors := p.2 }
    ("<h" ++ natStr depth ++ " id=" ++ qt p.1 ++ ">" ++ text ++
      "</h" ++ natStr depth ++ ">")

/-! ## WikiProcessor (formatter.py lines 35-131) -/

/-- `system_message` (lines 35-40).  The source escapes both arguments;
escaping is the identity on already-safe markup, and the embedded caller
passes the first argument as safe markup with its interpolations already
escaped, so the embedding receives it rendered. -/
def system_message (msg text : String) : String :=
  "<div class=" ++ qt "system-message" ++ ">\n <strong>" ++ msg ++
    "</strong>\n <pre>" ++ escapeHtml text ++ "</pre>\n</div>\n"

/-- The external capabilities `WikiProcessor.__init__` consults: the macro
names offered by the macro providers, the MIME map, and the renderers
(all collaborators outside this module). -/
structure WikiEnv where
  macros : List String
  mimeMap : List (String × String)
  sanitize : String → String
  macroRender : String → String → String
  mimeRender : String → String → String

/-- `WikiProcessor._default_processor` (lines 77-78). -/
def default_processor (text : String) : String :=
  "<pre class=" ++ qt "wiki" ++ ">" ++ escapeHtml text ++ "</pre>\n"

/-- `WikiProcessor._comment_processor` (lines 74-75). -/
def comment_processor (_text : String) : String := ""

/-- The state `WikiProcessor.__init__` leaves behind: the (possibly
MIME-resolved) name, the error slot, and the resolved processor. -/
structure WikiProcessor where
  name : String
  error : Option String
  processor : String → String

/-- `WikiProcessor.__init__` (lines 47-72): builtin processors first, then
the macro providers, then the MIME map by key and by value; when nothing
matches, the default processor is installed and the error is recorded. -/
def mkWikiProcessor (env : WikiEnv) (name : String) : WikiProcessor :=
  if name = "html" then { name := name, error := none, processor := env.sanitize }
  else if name = "default" then
    { name := name, error := none, processor := default_processor }
  else if name = "comment" then
    { name := name, error := none, processor := comment_processor }
  else if name ∈ env.macros then
    { name := name, error := none, processor := env.macroRender name }
  else
    match env.mimeMap.find? (fun kv => decide (kv.1 = name)) with
    | some kv => { name := kv.2, error := none, processor := env.mimeRender kv.2 }
    | none =>
      if name ∈ env.mimeMap.map (fun kv => kv.2) then
        { name := name, error := none, processor := env.mimeRender name }
      else
        { name := name,
          error := some ("No macro named [[" ++ name ++ "]] found"),
          processor := default_processor }

/-- `WikiProcessor.process` (lines 99-131) on the path taken when a code
fence closes (`handle_code_block` line 721 calls it without the
in-paragraph flag): when the error slot is set, the returned text is the
system message naming the processor, built from the error; otherwise the
resolved processor runs on the buffered text. -/
def WikiProcessor.process (p : WikiProcessor) (text : String) : String :=
  match p.error with
  | some err =>
    system_message ("Error: Failed to load processor <code>" ++
      escapeHtml p.name ++ "</code>") err
  | none => p.processor text

/-! ## InterWiki map expansion (formatter.py lines 984-1008) -/

/-- Value of a decimal digit character. -/
def digitVal (c : Char) : Nat := c.toNat - 48

/-- The `setarg` local function of `InterWikiMap._expand` (lines 985-987):
a placeholder number inside the argument range yields that argument,
anything else the empty string. -/
def iwArg (args : List String) (num : Nat) : String :=
  if 0 < num ∧ num ≤ args.length then args.getD (num - 1) "" else ""

/-- The substitution pass of `InterWikiMap._expand` over the template: the
pattern is a dollar sign followed by one digit; every occurrence is
replaced positionally, scanning left to right. -/
def expandGo (args : List String) : List Char → List Char
  | [] => []
  | [c] => [c]
  | c :: d :: rest2 =>
    if c = '$' then
      if d.isDigit then (iwArg args (digitVal d)).toList ++ expandGo args rest2
      else c :: expandGo args (d :: rest2)
    else c :: expandGo args (d :: rest2)

/-- `InterWikiMap._expand` (lines 984-988). -/
def iw_expand (txt : String) (args : List String) : String :=
  String.mk (expandGo args txt.toList)

/-- `InterWikiMap._expand_or_append` (lines 990-994): no arguments leaves
the template; an expansion that changed nothing appends the first
argument instead. -/
def expand_or_append (txt : String) (args : List String) : String :=
  match args with
  | [] => txt
  | a :: _ =>
    let expanded := iw_expand txt args
    if expanded = txt then txt ++ a else expanded

/-- Split a character list at every colon, the embedding of the Python
`target.split(':')`: the empty string yields one empty part, and each
colon starts a new part. -/
def splitColon : List Char → List (List Char)
  | [] => [[]]
  | c :: rest =>
    if c = ':' then [] :: splitColon rest
    else
      match splitColon rest with
      | [] => [[c]]
      | p :: ps => (c :: p) :: ps

/-- The argument list `InterWikiMap.url` builds: `target.split(':')`. -/
def splitTarget (target : String) : List String :=
  (splitColon target.toList).map String.mk

/-- `InterWikiMap.url` (lines 1001-1008) given the url and title templates
the map stores for the namespace (the map itself is built from wiki page
content outside this scope): split the target on colons, expand the url
template with append fallback, expand the title template, and fall back
to the `target in title` form when the title came out unchanged. -/
def interwiki_url (url title target : String) : String × String :=
  let args := splitTarget target
  let expanded_url := expand_or_append url args
  let expanded_title := iw_expand title args
  (expanded_url,
   if expanded_title = title then target ++ " in " ++ title else expanded_title)

/-! ## Public entry points (formatter.py lines 944-966)

Each entry point guards on Python falsiness of the wiki text (`None` or
the empty string) before constructing any formatter; the formatter
construction and run are abstracted as the function argument, which the
guard never invokes. -/

/-- `wiki_to_html` (lines 944-950). -/
def wiki_to_html (fmt : String → String) (wikitext : Option String) : String :=
  match wikitext with
  | none => ""
  | some t => if t = "" then "" else fmt t

/-- `wiki_to_oneliner` (lines 952-957). -/
def wiki_to_oneliner (fmt : String → String) (wikitext : Option String) : String :=
  match wikitext with
  | none => ""
  | some t => if t = "" then "" else fmt t

/-- `wiki_to_outline` (lines 959-966). -/
def wiki_to_outline (fmt : String → String) (wikitext : Option String) : String :=
  match wikitext with
  | none => ""
  | some t => if t = "" then "" else fmt t

/-! ### Lemmas about the toggle stack -/

/-- Generalised specification of the `close_tag` loop when the target close
tag occurs first at the given position: frames above are emitted
close-first top to bottom, the target close tag follows, the open tags of
the frames above are re-emitted bottom to top, and the stack keeps the
frames above in place with the target removed. -/
theorem closeTagGo_spec (t : Frame) (below : List Frame) :
    ∀ (above visited : List Frame), (∀ f ∈ above, f.2 ≠ t.2) →
    closeTagGo t.2 visited (above ++ t :: below) =
      (strJoin ((visited ++ above).map (fun g => g.2)) ++ t.2 ++
         strJoin ((visited ++ above).reverse.map (fun g => g.1)),
       (visited ++ above) ++ below) := by
  intro above
  induction above with
  | nil =>
    intro visited _
    simp [closeTagGo]
  | cons f rest ih =>
    intro visited h
    have hf : f.2 ≠ t.2 := h f (by simp)
    have hrest : ∀ g ∈ rest, g.2 ≠ t.2 := fun g hg => h g (by simp [hg])
    have := ih (visited ++ [f]) hrest
    simpa [closeTagGo, hf, List.append_assoc] using this

/-- When every frame carrying the target close tag is the frame `fr`
itself, `close_tag` removes exactly the first occurrence of `fr`. -/
theorem close_tag_stack_erase (fr : Frame) :
    ∀ (stack : List Frame), (∀ f ∈ stack, f.2 = fr.2 → f = fr) →
    (close_tag stack fr.2).2 = stack.erase fr := by
  have go : ∀ (rest visited : List Frame), (∀ f ∈ rest, f.2 = fr.2 → f = fr) →
      (closeTagGo fr.2 visited rest).2 = visited ++ rest.erase fr := by
    intro rest
    induction rest with
    | nil => intro visited _; simp [closeTagGo]
    | cons f tl ih =>
      intro visited h
      by_cases hf : f.2 = fr.2
      · have hfe : f = fr := h f (by simp) hf
        subst hfe
        simp [closeTagGo, List.erase_cons_head]
      · have hne : f ≠ fr := fun he => hf (by rw [he])
        have htl : ∀ g ∈ tl, g.2 = fr.2 → g = fr := fun g hg => h g (by simp [hg])
        have := ih (visited ++ [f]) htl
        rw [List.erase_cons_tail]
        · simpa [closeTagGo, hf, List.append_assoc] using this
        · simp [hne]
  intro stack h
  simpa [close_tag] using go stack [] h

/-- Stack effect of `simple_tag_handler` when frames carrying the close
tag can only be the pair itself: close the first occurrence, or push. -/
theorem simple_tag_handler_stack (st : List Frame) (fr : Frame)
    (hin : ∀ f ∈ st, f.2 = fr.2 → f = fr) :
    (simple_tag_handler st fr.1 fr.2).2 =
      if fr ∈ st then st.erase fr else fr :: st := by
  have he : (close_tag st fr.2).2 = st.erase fr := close_tag_stack_erase fr st hin
  by_cases hf : fr ∈ st
  · have hc : tag_open_p st (fr.1, fr.2) = true := by
      simp only [tag_open_p, List.contains, List.elem_eq_mem, decide_eq_true_eq]
      simpa using hf
    simp [simple_tag_handler, hc, he, hf]
  · have hc : tag_open_p st (fr.1, fr.2) = false := by
      simp only [tag_open_p, List.contains, List.elem_eq_mem,
        decide_eq_false_iff_not]
      simpa using hf
    simp [simple_tag_handler, hc, hf, open_tag]

/-- Stack effect of the combined bold-italic handler: the italic frame is
removed (if present) before the bold toggle and pushed afterwards (if it
was absent). -/
theorem bolditalic_stack (st : List Frame)
    (hi : ∀ f ∈ st, f.2 = italicF.2 → f = italicF)
    (hb : ∀ f ∈ st, f.2 = boldF.2 → f = boldF)
    (hbe : ∀ f ∈ st.erase italicF, f.2 = boldF.2 → f = boldF) :
    (bolditalic_formatter st).2 =
      if italicF ∈ st then
        (if boldF ∈ st.erase italicF then (st.erase italicF).erase boldF
         else boldF :: st.erase italicF)
      else italicF :: (if boldF ∈ st then st.erase boldF else boldF :: st) := by
  have he : (close_tag st "</i>").2 = st.erase italicF :=
    close_tag_stack_erase italicF st hi
  by_cases hio : italicF ∈ st
  · have hc : tag_open_p st italicF = true := by
      simp [tag_open_p, List.contains, List.elem_eq_mem, hio]
    rw [if_pos hio]
    simp only [bolditalic_formatter, hc, if_true, he]
    exact simple_tag_handler_stack (st.erase italicF) boldF hbe
  · have hc : tag_open_p st italicF = false := by
      simp [tag_open_p, List.contains, List.elem_eq_mem, hio]
    rw [if_neg hio]
    simp only [bolditalic_formatter, hc, Bool.false_eq_true, if_false, open_tag]
    exact congrArg (fun l => italicF :: l) (simple_tag_handler_stack st boldF hb)

/-! ### Lemmas about decimal strings and the anchor loop -/

/-- The digit-character inverse really inverts on decimal digits. -/
theorem digitCharInv_digitChar : ∀ d < 10, digitCharInv (Nat.digitChar d) = d := by
  decide

/-- Evaluating after appending one digit character. -/
theorem evalDigits_append (l : List Char) (c : Char) :
    evalDigits (l ++ [c]) = evalDigits l * 10 + digitCharInv c := by
  simp [evalDigits, List.foldl_append]

/-- The digit printer of zero is empty at any fuel. -/
theorem natStrGo_zero (fuel : Nat) : natStrGo fuel 0 = [] := by
  cases fuel <;> simp [natStrGo]

/-- With enough fuel the digit printer round-trips through evaluation. -/
theorem natStrGo_eval : ∀ fuel n, 0 < n → n ≤ fuel → evalDigits (natStrGo fuel n) = n := by
  intro fuel
  induction fuel with
  | zero => intro n h1 h2; omega
  | succ fuel ih =>
    intro n h1 h2
    rw [natStrGo, if_neg (by omega), evalDigits_append,
      digitCharInv_digitChar (n % 10) (Nat.mod_lt _ (by norm_num))]
    by_cases h10 : n < 10
    · rw [Nat.div_eq_of_lt h10, natStrGo_zero]
      have : evalDigits [] = 0 := rfl
      rw [this]
      omega
    · have hd : 0 < n / 10 := Nat.div_pos (by omega) (by norm_num)
      have hlt : n / 10 < n := Nat.div_lt_self h1 (by norm_num)
      rw [ih (n / 10) hd (by omega)]
      omega

/-- The digit printer of a positive number is nonempty. -/
theorem natStrGo_ne_nil (fuel n : Nat) (h1 : 0 < n) (h2 : n ≤ fuel) :
    natStrGo fuel n ≠ [] := by
  cases fuel with
  | zero => omega
  | succ fuel =>
    rw [natStrGo, if_neg (by omega)]
    simp

/-- The decimal representation is injective on positive numbers. -/
theorem natStr_inj_pos (m n : Nat) (hm : 0 < m) (hn : 0 < n)
    (h : natStr m = natStr n) : m = n := by
  unfold natStr at h
  rw [if_neg (by omega), if_neg (by omega)] at h
  have hl : natStrGo m m = natStrGo n n := by
    have := congrArg String.data h
    simpa using this
  have := congrArg evalDigits hl
  rwa [natStrGo_eval m m hm le_rfl, natStrGo_eval n n hn le_rfl] at this

/-- The decimal representation of a positive number is a nonempty string. -/
theorem natStr_pos_ne_empty (n : Nat) (hn : 0 < n) : natStr n ≠ "" := by
  unfold natStr
  rw [if_neg (by omega)]
  intro h
  have := congrArg String.data h
  simp at this
  exact natStrGo_ne_nil n n hn le_rfl this

/-- Strings with equal character lists are equal. -/
theorem str_data_inj {a b : String} (h : a.data = b.data) : a = b :=
  congrArg String.mk h

/-- Appending the empty string is the identity. -/
theorem str_append_empty (s : String) : s ++ "" = s := by
  apply str_data_inj
  simp [String.data_append]

/-- Left-cancellation for string append. -/
theorem str_append_left_cancel {a x y : String} (h : a ++ x = a ++ y) : x = y := by
  apply str_data_inj
  have := congrArg String.data h
  simpa [String.data_append] using this

/-- A string never equals itself extended by a nonempty string. -/
theorem str_ne_append_ne_empty (a x : String) (hx : x ≠ "") : a ≠ a ++ x := by
  intro h
  apply hx
  have : a ++ "" = a ++ x := by rw [str_append_empty]; exact h
  exact (str_append_left_cancel this).symm

/-- The suffixed candidates of the anchor loop are pairwise distinct. -/
theorem anchor_candidate_inj (base : String) (i j : Nat) (hi : 0 < i) (hj : 0 < j)
    (h : base ++ natStr i = base ++ natStr j) : i = j :=
  natStr_inj_pos i j hi hj (str_append_left_cancel h)

/-- Among the first `anchors.length + 1` suffixed candidates at least one
is not yet allocated. -/
theorem anchorLoop_finds_free (anchors : List String) (base : String) :
    ∃ j, 1 ≤ j ∧ j < 1 + (anchors.length + 1) ∧ base ++ natStr j ∉ anchors := by
  by_contra hcon
  push_neg at hcon
  have hsub : ((List.range' 1 (anchors.length + 1)).map
      (fun j => base ++ natStr j)) ⊆ anchors := by
    intro x hx
    rw [List.mem_map] at hx
    obtain ⟨j, hj, rfl⟩ := hx
    rw [List.mem_range'_1] at hj
    exact hcon j hj.1 (by omega)
  have hnd : ((List.range' 1 (anchors.length + 1)).map
      (fun j => base ++ natStr j)).Nodup := by
    refine List.Nodup.map_on ?_ (List.nodup_range' 1 (anchors.length + 1))
    intro x hx y hy hxy
    rw [List.mem_range'_1] at hx hy
    exact anchor_candidate_inj base x y (by omega) (by omega) hxy
  have hle := (hnd.subperm hsub).length_le
  rw [List.length_map, List.length_range'] at hle
  omega

/-- Behaviour of the collision loop when a free candidate lies within the
fuel window: the result is unallocated, and it is either the starting
candidate or the first free suffixed candidate, every earlier one being
allocated. -/
theorem anchorLoop_spec (anchors : List String) (base : String) :
    ∀ (fuel i : Nat) (cur : String),
    (cur ∉ anchors ∨ ∃ j, i ≤ j ∧ j < i + fuel ∧ base ++ natStr j ∉ anchors) →
    anchorLoop anchors base fuel i cur ∉ anchors ∧
    (anchorLoop anchors base fuel i cur = cur ∨
      (cur ∈ anchors ∧ ∃ k, i ≤ k ∧
        anchorLoop anchors base fuel i cur = base ++ natStr k ∧
        ∀ j, i ≤ j → j < k → base ++ natStr j ∈ anchors)) := by
  intro fuel
  induction fuel with
  | zero =>
    intro i cur hfree
    have hc : cur ∉ anchors := by
      rcases hfree with h | ⟨j, hj1, hj2, _⟩
      · exact h
      · omega
    exact ⟨hc, Or.inl rfl⟩
  | succ fuel ih =>
    intro i cur hfree
    by_cases hc : cur ∈ anchors
    · rw [anchorLoop, if_pos hc]
      by_cases hfi : base ++ natStr i ∈ anchors
      · have hrec := ih (i + 1) (base ++ natStr i)
          (by
            right
            rcases hfree with h | ⟨j, hj1, hj2, hj3⟩
            · exact absurd hc h
            · refine ⟨j, ?_, by omega, hj3⟩
              rcases Nat.eq_or_lt_of_le hj1 with rfl | h1
              · exact absurd hfi hj3
              · omega)
        refine ⟨hrec.1, Or.inr ⟨hc, ?_⟩⟩
        rcases hrec.2 with heq | ⟨_, k, hk1, hk2, hk3⟩
        · exact ⟨i, le_rfl, heq, fun j h1 h2 => by omega⟩
        · refine ⟨k, by omega, hk2, fun j h1 h2 => ?_⟩
          rcases Nat.eq_or_lt_of_le h1 with rfl | h1'
          · exact hfi
          · exact hk3 j (by omega) h2
      · have hrec := ih (i + 1) (base ++ natStr i) (Or.inl hfi)
        refine ⟨hrec.1, Or.inr ⟨hc, ?_⟩⟩
        rcases hrec.2 with heq | ⟨hmem, _⟩
        · exact ⟨i, le_rfl, heq, fun j h1 h2 => by omega⟩
        · exact absurd hmem hfi
    · rw [anchorLoop, if_neg hc]
      exact ⟨hc, Or.inl rfl⟩

/-- The allocation of `_heading_formatter` always lands on an unallocated
id: the id is the base anchor when that is free, and otherwise the base
anchor with the first free counter appended. -/
theorem alloc_anchor_spec (anchors : List String) (t : String) :
    (alloc_anchor anchors t).1 ∉ anchors ∧
    ((alloc_anchor anchors t).1 = anchor_base t ∨
      (anchor_base t ∈ anchors ∧ ∃ k, 1 ≤ k ∧
        (alloc_anchor anchors t).1 = anchor_base t ++ natStr k ∧
        ∀ j, 1 ≤ j → j < k → anchor_base t ++ natStr j ∈ anchors)) := by
  obtain ⟨j, hj1, hj2, hj3⟩ := anchorLoop_finds_free anchors (anchor_base t)
  exact anchorLoop_spec anchors (anchor_base t) (anchors.length + 1) 1
    (anchor_base t) (Or.inr ⟨j, hj1, hj2, hj3⟩)

/-- A string whose head is a letter keeps that head under appending. -/
theorem headAlpha_append (a x : String) (h : headAlpha a = true) :
    headAlpha (a ++ x) = true := by
  unfold headAlpha at h ⊢
  rcases ha : a.toList with _ | ⟨c, rest⟩
  · rw [ha] at h; simp at h
  · have hax : (a ++ x).toList = c :: (rest ++ x.toList) := by
      show (a ++ x).data = c :: (rest ++ x.data)
      rw [String.data_append]
      have hd : a.data = c :: rest := ha
      rw [hd]
      rfl
    rw [hax]
    rw [ha] at h
    exact h

/-- The base anchor starts with a letter. -/
theorem anchor_base_headAlpha (t : String) : headAlpha (anchor_base t) = true := by
  simp only [anchor_base]
  split
  · exact headAlpha_append "a" _ rfl
  · rename_i h
    rw [not_or] at h
    cases hh : headAlpha (String.mk (t.toList.filter anchorKeep))
    · exact absurd hh h.2
    · rfl

/-! ## Claim C3 -/

/-- C3 counterexample: on the heading text `a-b` the claimed character
class keeps the hyphen, predicting the id `a-b` (it starts with a letter
and nothing collides), but the compiled anchor pattern treats the period
and colon as a character range, so the hyphen is removed and the code
allocates `ab`. -/
theorem c3_anchor_counterexample :
    String.mk ("a-b".toList.filter claimKeep) = "a-b" ∧
    (alloc_anchor [] "a-b").1 = "ab" ∧
    (alloc_anchor [] "a-b").1 ≠ "a-b" := by
  refine ⟨by decide, by decide, by decide⟩

/-- C3 amended: the anchor id is derived from the tag-stripped rendered
heading text by removing every character outside the class the code
compiles (word characters, i.e. letters, digits and underscore, plus the
period-to-colon range containing period, slash, digits and colon; the
hyphen is removed), prefixing `a` if the result is empty or does not
start with a letter; on collision the smallest unused counter is
appended: the allocated id is fresh, the registry gains exactly that id
and stays duplicate-free, ids start with a letter, and two headings with
identical text yield `foo` and `foo1`. -/
theorem c3_anchor_amended (anchors : List String) (t : String)
    (hnd : anchors.Nodup) :
    (alloc_anchor anchors t).1 ∉ anchors ∧
    (alloc_anchor anchors t).2 = anchors ++ [(alloc_anchor anchors t).1] ∧
    (alloc_anchor anchors t).2.Nodup ∧
    headAlpha (alloc_anchor anchors t).1 = true ∧
    ((alloc_anchor anchors t).1 = anchor_base t ∨
      (anchor_base t ∈ anchors ∧ ∃ k, 1 ≤ k ∧
        (alloc_anchor anchors t).1 = anchor_base t ++ natStr k ∧
        ∀ j, 1 ≤ j → j < k → anchor_base t ++ natStr j ∈ anchors)) ∧
    alloc_anchor [] "foo" = ("foo", ["foo"]) ∧
    alloc_anchor ["foo"] "foo" = ("foo1", ["foo", "foo1"]) := by
  obtain ⟨hfresh, hshape⟩ := alloc_anchor_spec anchors t
  refine ⟨hfresh, rfl, ?_, ?_, hshape, by decide, by decide⟩
  · show (anchors ++ [(alloc_anchor anchors t).1]).Nodup
    rw [List.nodup_append]
    refine ⟨hnd, by simp, ?_⟩
    intro x hx hx2
    simp only [List.mem_singleton] at hx2
    subst hx2
    exact hfresh hx
  · rcases hshape with heq | ⟨_, k, _, heq, _⟩
    · rw [heq]; exact anchor_base_headAlpha t
    · rw [heq]; exact headAlpha_append _ _ (anchor_base_headAlpha t)

/-- Witness for C3 amended at the registry holding `foo` and the heading
text `foo` again. -/
theorem c3_anchor_amended_witness :
    (alloc_anchor ["foo"] "foo").1 ∉ ["foo"] ∧
    (alloc_anchor ["foo"] "foo").2.Nodup :=
  ⟨(c3_anchor_amended ["foo"] "foo" (by decide)).1,
   (c3_anchor_amended ["foo"] "foo" (by decide)).2.2.1⟩

/-! ## Claim C4 -/

/-- C4 counterexample: two `format` calls on one instance do not produce
identical output on the same heading text.  The first pass allocates the
id `foo`; the second pass starts from a state whose per-pass fields the
source resets but whose anchor registry persists, so the same heading
gets the id `foo1` and the written output differs. -/
theorem c4_format_reset_counterexample :
    (heading_emit (format_reset
        (heading_emit (format_reset ({} : FState)) 1 "foo" "foo")) 1 "foo" "foo").out ≠
      (heading_emit (format_reset ({} : FState)) 1 "foo" "foo").out := by
  decide

/-- C4 amended: the start of `format` resets the open-tag, list, quote and
tabstop stacks, the code-block counter, the table, definition-list, row,
cell and paragraph flags and installs a fresh sink, but not the
heading-anchor registry, which is initialised in the constructor and
survives across calls on the same instance. -/
theorem c4_format_reset_amended (s : FState) :
    (format_reset s).open_tags = [] ∧
    (format_reset s).list_stack = [] ∧
    (format_reset s).quote_stack = [] ∧
    (format_reset s).tabstops = [] ∧
    (format_reset s).in_code_block = 0 ∧
    (format_reset s).in_table = false ∧
    (format_reset s).in_def_list = false ∧
    (format_reset s).in_table_row = false ∧
    (format_reset s).in_table_cell = false ∧
    (format_reset s).paragraph_open = false ∧
    (format_reset s).out = "" ∧
    (format_reset s).anchors = s.anchors :=
  ⟨rfl, rfl, rfl, rfl, rfl, rfl, rfl, rfl, rfl, rfl, rfl, rfl⟩

/-! ## Claim C5 -/

set_option maxRecDepth 4096

/-- C5 counterexample: with no builtin, macro or MIME resolution for the
declared processor name, the buffered fence text is not rendered at all:
the returned markup is exactly the error box and contains no occurrence
of the buffered text, so no raw preformatted block of it is emitted. -/
theorem c5_processor_counterexample :
    (mkWikiProcessor ⟨[], [], id, fun _ t => t, fun _ t => t⟩ "boom").process
        "SECRET" =
      system_message ("Error: Failed to load processor <code>boom</code>")
        "No macro named [[boom]] found" ∧
    ¬ ("SECRET".toList <:+:
      ((mkWikiProcessor ⟨[], [], id, fun _ t => t, fun _ t => t⟩ "boom").process
        "SECRET").toList) := by
  constructor
  · rfl
  · decide

/-- C5 amended: when the declared name resolves to no builtin processor,
no macro and no MIME renderer, `process` returns only the inline error
box naming the processor; the buffered text is dropped (the output does
not depend on it) and the default preformatted rendering installed by the
constructor is never invoked; being a total function of the state, the
failure cannot abort the pass. -/
theorem c5_processor_amended (env : WikiEnv) (name text : String)
    (h1 : name ≠ "html") (h2 : name ≠ "default") (h3 : name ≠ "comment")
    (hm : name ∉ env.macros)
    (hk : ∀ kv ∈ env.mimeMap, kv.1 ≠ name)
    (hv : name ∉ env.mimeMap.map (fun kv => kv.2)) :
    (mkWikiProcessor env name).error =
      some ("No macro named [[" ++ name ++ "]] found") ∧
    (mkWikiProcessor env name).process text =
      system_message
        ("Error: Failed to load processor <code>" ++ escapeHtml name ++ "</code>")
        ("No macro named [[" ++ name ++ "]] found") ∧
    (mkWikiProcessor env name).process text = (mkWikiProcessor env name).process "" ∧
    (escapeHtml name).toList <:+:
      ((mkWikiProcessor env name).process text).toList := by
  have hfind : env.mimeMap.find? (fun kv => decide (kv.1 = name)) = none := by
    rw [List.find?_eq_none]
    intro kv hkv
    simp [hk kv hkv]
  have hmk : mkWikiProcessor env name =
      { name := name,
        error := some ("No macro named [[" ++ name ++ "]] found"),
        processor := default_processor } := by
    rw [mkWikiProcessor, if_neg h1, if_neg h2, if_neg h3, if_neg hm, hfind,
      if_neg hv]
  refine ⟨by rw [hmk], by rw [hmk]; rfl, by rw [hmk]; rfl, ?_⟩
  rw [hmk]
  show (escapeHtml name).toList <:+:
    (system_message ("Error: Failed to load processor <code>" ++
      escapeHtml name ++ "</code>") ("No macro named [[" ++ name ++ "]] found")).toList
  refine ⟨("<div class=" ++ qt "system-message" ++ ">\n <strong>" ++
    "Error: Failed to load processor <code>").toList,
    ("</code>" ++ "</strong>\n <pre>" ++
      escapeHtml ("No macro named [[" ++ name ++ "]] found") ++
      "</pre>\n</div>\n").toList, ?_⟩
  show _ ++ _ ++ _ = String.data _
  simp only [system_message, String.data_append]
  show _ = String.data _
  simp only [String.data_append]
  simp [String.toList]

/-- Witness for C5 amended at the unresolvable name `boom`. -/
theorem c5_processor_amended_witness :
    (mkWikiProcessor ⟨[], [("x", "y")], id, fun _ t => t, fun _ t => t⟩ "boom").error =
      some ("No macro named [[" ++ "boom" ++ "]] found") ∧
    ("boom" : String) ≠ "html" :=
  ⟨(c5_processor_amended ⟨[], [("x", "y")], id, fun _ t => t, fun _ t => t⟩
      "boom" "text" (by decide) (by decide) (by decide) (by simp)
      (by intro kv hkv; simp at hkv; simp [hkv]) (by simp)).1,
   by decide⟩

/-! ## Claim C6 -/

/-- C6: placeholder expansion is positional: a dollar sign followed by a
digit whose value lies in the argument range substitutes that argument
and an out-of-range one substitutes the empty string; a template without
any dollar sign is left unchanged, so the append fallback of
`_expand_or_append` adds the first argument; an unchanged title becomes
`target in title`; and the concrete cases of the claim hold: the template
`http://x.org/$1` against target `a:b:c` expands to `http://x.org/a`
using only the first argument, and a placeholder-free template has the
first argument appended. -/
theorem c6_interwiki_expansion :
    (∀ (args : List String) (a b : List Char) (d : Char), d.isDigit = true →
      (∀ c ∈ a, c ≠ '$') →
      expandGo args (a ++ '$' :: d :: b) =
        a ++ ((iwArg args (digitVal d)).toList ++ expandGo args b)) ∧
    (∀ (args : List String) (n : Nat), args.length < n → iwArg args n = "") ∧
    (∀ (args : List String) (n : Nat), 1 ≤ n → n ≤ args.length →
      iwArg args n = args.getD (n - 1) "") ∧
    (∀ (txt : String) (args : List String), (∀ c ∈ txt.toList, c ≠ '$') →
      iw_expand txt args = txt) ∧
    (∀ (txt a : String) (rest : List String), (∀ c ∈ txt.toList, c ≠ '$') →
      expand_or_append txt (a :: rest) = txt ++ a) ∧
    (∀ (url title target : String),
      iw_expand title (splitTarget target) = title →
      (interwiki_url url title target).2 = target ++ " in " ++ title) ∧
    interwiki_url "http://x.org/$1" "x title" "a:b:c" =
      ("http://x.org/a", "a:b:c in x title") ∧
    interwiki_url "http://x.org/" "Wiki" "a" = ("http://x.org/a", "a in Wiki") := by
  have hsub : ∀ (args : List String) (a b : List Char) (d : Char),
      d.isDigit = true → (∀ c ∈ a, c ≠ '$') →
      expandGo args (a ++ '$' :: d :: b) =
        a ++ ((iwArg args (digitVal d)).toList ++ expandGo args b) := by
    intro args a
    induction a with
    | nil =>
      intro b d hd _
      simp [expandGo, hd]
    | cons c a ih =>
      intro b d hd hnd
      have hc : c ≠ '$' := hnd c (by simp)
      have hrest : ∀ x ∈ a, x ≠ '$' := fun x hx => hnd x (by simp [hx])
      rcases ha : a ++ '$' :: d :: b with _ | ⟨r1, rest⟩
      · exact absurd ha (by simp)
      · rw [List.cons_append, ha, expandGo, if_neg hc, ← ha, ih b d hd hrest]
        rfl
  have hid : ∀ (l : List Char) (args : List String), (∀ c ∈ l, c ≠ '$') →
      expandGo args l = l := by
    intro l
    induction l with
    | nil => intro args _; rfl
    | cons c rest ih =>
      intro args hl
      have hc : c ≠ '$' := hl c (by simp)
      have hr : ∀ x ∈ rest, x ≠ '$' := fun x hx => hl x (by simp [hx])
      rcases hrest : rest with _ | ⟨r1, rest2⟩
      · simp [expandGo]
      · rw [expandGo, if_neg hc, ← hrest, ih args hr]
  refine ⟨hsub, ?_, ?_, ?_, ?_, ?_, by decide, by decide⟩
  · intro args n h
    unfold iwArg
    rw [if_neg (by omega)]
  · intro args n h1 h2
    unfold iwArg
    rw [if_pos ⟨by omega, h2⟩]
  · intro txt args h
    unfold iw_expand
    rw [hid txt.toList args h]
    exact str_data_inj rfl
  · intro txt a rest h
    unfold expand_or_append
    have : iw_expand txt (a :: rest) = txt := by
      unfold iw_expand
      rw [hid txt.toList (a :: rest) h]
      exact str_data_inj rfl
    simp [this]
  · intro url title target h
    unfold interwiki_url
    simp [h]

/-- Witness for C6 at the claim example: the template with one
placeholder against the three-part target. -/
theorem c6_interwiki_expansion_witness :
    iw_expand "http://x.org/$1" ["a", "b", "c"] = "http://x.org/a" ∧
    Char.isDigit '1' = true :=
  ⟨by
    have h := (c6_interwiki_expansion).1 ["a", "b", "c"]
      "http://x.org/".toList [] '1' (by decide) (by decide)
    have h2 : iw_expand "http://x.org/$1" ["a", "b", "c"] =
        String.mk (expandGo ["a", "b", "c"] ("http://x.org/".toList ++ '$' :: '1' :: [])) := rfl
    rw [h2, h]
    decide,
   by decide⟩

/-! ### Lemmas about the block state machine -/

/-- `close_table_row` leaves the stacks and flags other than the row and
cell flags unchanged. -/
theorem close_table_row_fields (s : FState) :
    (close_table_row s).quote_stack = s.quote_stack ∧
    (close_table_row s).list_stack = s.list_stack ∧
    (close_table_row s).in_def_list = s.in_def_list ∧
    (close_table_row s).paragraph_open = s.paragraph_open ∧
    (close_table_row s).in_table = s.in_table := by
  simp only [close_table_row, wr]
  split_ifs <;> exact ⟨rfl, rfl, rfl, rfl, rfl⟩

/-- `close_table` closes the table flag and leaves the stacks and the
other block flags unchanged. -/
theorem close_table_fields (s : FState) :
    (close_table s).quote_stack = s.quote_stack ∧
    (close_table s).list_stack = s.list_stack ∧
    (close_table s).in_def_list = s.in_def_list ∧
    (close_table s).paragraph_open = s.paragraph_open ∧
    (close_table s).in_table = false := by
  obtain ⟨h1, h2, h3, h4, _⟩ := close_table_row_fields s
  simp only [close_table, wr]
  split_ifs with h
  · exact ⟨h1, h2, h3, h4, rfl⟩
  · exact ⟨rfl, rfl, rfl, rfl, by simpa using h⟩

/-- `close_paragraph` closes the paragraph flag and leaves the stacks and
block flags unchanged. -/
theorem close_paragraph_fields (s : FState) :
    (close_paragraph s).quote_stack = s.quote_stack ∧
    (close_paragraph s).list_stack = s.list_stack ∧
    (close_paragraph s).in_def_list = s.in_def_list ∧
    (close_paragraph s).in_table = s.in_table ∧
    (close_paragraph s).paragraph_open = false := by
  simp only [close_paragraph, wr]
  split_ifs with h
  · exact ⟨rfl, rfl, rfl, rfl, rfl⟩
  · exact ⟨rfl, rfl, rfl, rfl, by simpa using h⟩

/-- `close_def_list` closes the definition-list flag and leaves the rest
unchanged. -/
theorem close_def_list_fields (s : FState) :
    (close_def_list s).quote_stack = s.quote_stack ∧
    (close_def_list s).list_stack = s.list_stack ∧
    (close_def_list s).paragraph_open = s.paragraph_open ∧
    (close_def_list s).in_table = s.in_table ∧
    (close_def_list s).in_def_list = false := by
  simp only [close_def_list, wr]
  split_ifs <;> simp

/-- One quote pop removes exactly the top quote frame. -/
theorem close_quote_stack (s : FState) :
    (close_quote s).quote_stack = s.quote_stack.tail := by
  obtain ⟨hp, _⟩ := close_paragraph_fields (close_table s)
  obtain ⟨ht, _⟩ := close_table_fields s
  simp only [close_quote, wr]
  rw [hp, ht]

/-- One quote pop does not touch the list stack or the definition flag. -/
theorem close_quote_fields (s : FState) :
    (close_quote s).list_stack = s.list_stack ∧
    (close_quote s).in_def_list = s.in_def_list := by
  obtain ⟨_, hpl, hpd, _⟩ := close_paragraph_fields (close_table s)
  obtain ⟨_, htl, htd, _⟩ := close_table_fields s
  simp only [close_quote, wr]
  exact ⟨by rw [hpl, htl], by rw [hpd, htd]⟩

/-- When every quote frame has positive depth and the traversal spine is
the quote stack itself, closing to depth zero empties the stack. -/
theorem closeQuotesToGo_stack_zero :
    ∀ (l : List Nat) (s : FState), s.quote_stack = l → (∀ d ∈ l, 0 < d) →
    (closeQuotesToGo 0 s l).quote_stack = [] := by
  intro l
  induction l with
  | nil => intro s h _; simpa [closeQuotesToGo] using h
  | cons off rest ih =>
    intro s h hall
    have hoff : 0 < off := hall off (by simp)
    rw [closeQuotesToGo, if_neg (by omega)]
    refine ih (close_quote s) ?_ (fun d hd => hall d (by simp [hd]))
    rw [close_quote_stack, h]
    rfl

/-- The popped list stack is the stack with its too-deep prefix dropped. -/
theorem closeListsLoop_fst (depth : Nat) :
    ∀ (l : List (Option String × Nat)),
    (closeListsLoop depth l).1 = l.dropWhile (fun f => decide (depth < f.2)) := by
  intro l
  induction l with
  | nil => rfl
  | cons f rest ih =>
    obtain ⟨tp, off⟩ := f
    simp only [closeListsLoop, List.dropWhile]
    split_ifs with h1
    · have : decide (depth < off) = false := by
        simp only [decide_eq_false_iff_not]
        omega
      rw [this]
    · have : decide (depth < off) = true := by
        simp only [decide_eq_true_eq]
        omega
      rw [this]
      exact ih

/-- `close_list` is the depth-zero call of `_set_list_depth`: over natural
depths its opening branch and its depth-positive post-adjustments are
vacuous, leaving the closing loop and its emissions. -/
theorem close_list_eq (s : FState) :
    close_list s =
      wr { s with list_stack := (closeListsLoop 0 s.list_stack).1 }
        (closeListsLoop 0 s.list_stack).2 := by
  simp only [close_list, set_list_depth]
  rw [if_neg (show ¬ (0 > (s.list_stack.headD (none, 0)).2) by omega),
    if_neg (show ¬ ((0 : Nat) > 0) by omega)]

/-- `close_list` changes only the list stack and the output. -/
theorem close_list_fields (s : FState) :
    (close_list s).in_table = s.in_table ∧
    (close_list s).quote_stack = s.quote_stack ∧
    (close_list s).paragraph_open = s.paragraph_open ∧
    (close_list s).in_def_list = s.in_def_list ∧
    (close_list s).list_stack =
      s.list_stack.dropWhile (fun f => decide (0 < f.2)) := by
  rw [close_list_eq]
  exact ⟨rfl, rfl, rfl, rfl, closeListsLoop_fst 0 s.list_stack⟩

/-- `_set_quote_depth` at target depth zero is exactly
`close_indentation`: the opening branch and the depth-positive
post-adjustments cannot fire. -/
theorem set_quote_depth_zero (citation : Bool) (s : FState) :
    set_quote_depth citation s 0 = close_indentation s := by
  simp only [set_quote_depth, close_indentation, closeQuotesTo]
  rw [if_neg (show ¬ ((0 : Nat) > s.quote_stack.headD 0) by omega),
    if_neg (show ¬ (citation = false ∧ (0 : Nat) > 0) by omega),
    if_neg (show ¬ ((0 : Nat) > 0) by omega)]

/-! ## Claim C8 -/

/-- C8 counterexample: on a state with an open table under an open quote
frame (reachable, e.g. after the line consisting of two spaces and a
table row), a blank line does not leave the table-open state unchanged:
closing the quote frame force-closes the table first. -/
theorem c8_blank_line_counterexample :
    (blank_line { in_table := true, quote_stack := [2] }).in_table = false ∧
    ({ in_table := true, quote_stack := [2] } : FState).in_table = true := by
  constructor
  · decide
  · rfl

/-- C8 amended: a blank line closes the paragraph, all quote frames, all
list frames and the definition list; the table-open flag is preserved
exactly when no quote frame is open, since closing each quote frame
force-closes the table first. -/
theorem c8_blank_line_amended (s : FState)
    (hq : s.quote_stack = [])
    (hl : ∀ f ∈ s.list_stack, 0 < f.2) :
    (blank_line s).in_table = s.in_table ∧
    (blank_line s).paragraph_open = false ∧
    (blank_line s).quote_stack = [] ∧
    (blank_line s).list_stack = [] ∧
    (blank_line s).in_def_list = false := by
  obtain ⟨hpq, hpl, hpd, hpt, hpp⟩ := close_paragraph_fields s
  have hid : close_indentation (close_paragraph s) = close_paragraph s := by
    unfold close_indentation closeQuotesTo
    rw [hpq, hq]
    rfl
  obtain ⟨hct, hcq, hcp, hcd, hcl⟩ := close_list_fields (close_paragraph s)
  obtain ⟨hdq, hdl, hdp, hdt, hdd⟩ :=
    close_def_list_fields (close_list (close_paragraph s))
  unfold blank_line
  rw [hid]
  refine ⟨?_, ?_, ?_, ?_, hdd⟩
  · rw [hdt, hct, hpt]
  · rw [hdp, hcp, hpp]
  · rw [hdq, hcq, hpq, hq]
  · rw [hdl, hcl, hpl]
    rw [List.dropWhile_eq_nil_iff]
    intro f hf
    simpa using hl f hf

/-- Witness for C8 amended: a state with an open paragraph, an open table
and one open list frame but no quote frames. -/
theorem c8_blank_line_amended_witness :
    (blank_line
      { in_table := true, paragraph_open := true,
        list_stack := [(some "ul", 2)] }).in_table =
      ({ in_table := true, paragraph_open := true,
         list_stack := [(some "ul", 2)] } : FState).in_table ∧
    (blank_line
      { in_table := true, paragraph_open := true,
        list_stack := [(some "ul", 2)] }).list_stack = [] :=
  ⟨(c8_blank_line_amended _ rfl (by decide)).1,
   (c8_blank_line_amended _ rfl (by decide)).2.2.2.1⟩

/-! ## Claim C9 -/

/-- C9: closing more list or quote nesting than is open never underflows:
with an empty stack `close_list` and `close_indentation` are the
identity (state, output and flags untouched), and when all open frames
have positive depth the closing loops pop exactly down to the empty
stack and stop there. -/
theorem c9_no_underflow (s : FState) :
    (s.list_stack = [] → close_list s = s) ∧
    (s.quote_stack = [] → close_indentation s = s) ∧
    ((∀ f ∈ s.list_stack, 0 < f.2) → (close_list s).list_stack = []) ∧
    ((∀ d ∈ s.quote_stack, 0 < d) → (close_indentation s).quote_stack = []) := by
  refine ⟨?_, ?_, ?_, ?_⟩
  · intro h
    rw [close_list_eq, h]
    show wr { s with list_stack := [] } "" = s
    rcases s with ⟨ot, ls, qs, ts, icb, it, idl, itr, itc, po, ili, iq, an, out⟩
    simp only at h
    subst h
    simp [wr, str_append_empty]
  · intro h
    unfold close_indentation closeQuotesTo
    rw [h]
    rfl
  · intro h
    obtain ⟨_, _, _, _, hcl⟩ := close_list_fields s
    rw [hcl, List.dropWhile_eq_nil_iff]
    intro f hf
    simpa using h f hf
  · intro h
    exact closeQuotesToGo_stack_zero s.quote_stack s rfl h

/-- Witness for C9 at two concrete states: empty stacks are left alone,
and positive-depth stacks drain without underflow. -/
theorem c9_no_underflow_witness :
    close_list ({ in_table := true } : FState) = { in_table := true } ∧
    close_indentation ({ in_table := true } : FState) = { in_table := true } ∧
    (close_list { list_stack := [(some "ul", 3), (some "ol", 1)] }).list_stack = [] ∧
    (close_indentation { quote_stack := [5, 2] }).quote_stack = [] :=
  ⟨(c9_no_underflow _).1 rfl, (c9_no_underflow _).2.1 rfl,
   (c9_no_underflow _).2.2.1 (by decide), (c9_no_underflow _).2.2.2 (by decide)⟩

/-! ## Claim C10 -/

/-- C10: each public entry point returns the empty string on the missing
and on the empty wiki text without invoking the formatting pipeline at
all (the guard returns before the formatter argument is ever applied,
whatever it is), so no paragraph or markup is written. -/
theorem c10_empty_entry_points (fmt1 fmt2 fmt3 : String → String) :
    wiki_to_html fmt1 none = "" ∧ wiki_to_html fmt1 (some "") = "" ∧
    wiki_to_oneliner fmt2 none = "" ∧ wiki_to_oneliner fmt2 (some "") = "" ∧
    wiki_to_outline fmt3 none = "" ∧ wiki_to_outline fmt3 (some "") = "" :=
  ⟨rfl, rfl, rfl, rfl, rfl, rfl⟩

/-! ## Claim C2 -/

/-- C2: closing an (open, close) pair that sits below other frames on the
toggle stack emits the close tags of every frame above it from top to
bottom, then the close tag of the pair itself, then re-emits the open tags
of the frames that were above it from bottom to top; the target frame is
removed and the frames above it stay on the stack.  The stack is written
top first, so `above` lists the frames above the target from the top down,
and bottom-to-top order over them is `above.reverse`.  The hypothesis pins
the decomposition to the topmost frame carrying the target close tag,
which is the one the source loop closes. -/
theorem c2_close_tag_reopens (above : List Frame) (t : Frame) (below : List Frame)
    (h : ∀ f ∈ above, f.2 ≠ t.2) :
    close_tag (above ++ t :: below) t.2 =
      (strJoin (above.map (fun g => g.2)) ++ t.2 ++
         strJoin (above.reverse.map (fun g => g.1)),
       above ++ below) := by
  simpa [close_tag] using closeTagGo_spec t below above [] h

/-- Witness for C2 at a concrete stack: closing the italic frame from under
a subscript frame emits the subscript close tag, the italic close tag and
reopens the subscript, leaving the subscript frame on the stack. -/
theorem c2_close_tag_reopens_witness :
    close_tag ([subF] ++ italicF :: [boldF]) italicF.2 =
      (strJoin ([subF].map (fun g => g.2)) ++ italicF.2 ++
         strJoin ([subF].reverse.map (fun g => g.1)),
       [subF] ++ [boldF]) :=
  c2_close_tag_reopens [subF] italicF [boldF] (by decide)

/-! ## Claim C1 -/

/-- Dropping by the length of the kept prefix is dropping the prefix. -/
theorem drop_takeWhile_length {α : Type} (p : α → Bool) :
    ∀ l : List α, l.drop (l.takeWhile p).length = l.dropWhile p := by
  intro l
  induction l with
  | nil => rfl
  | cons c t ih =>
    by_cases h : p c
    · simp [List.takeWhile, List.dropWhile, h, ih]
    · simp [List.takeWhile, List.dropWhile, h]

/-- A line whose first non-blank character is the escape character never
matches the heading rule: the depth run of equals signs cannot start. -/
theorem headingMatch_escaped (l : List Char)
    (h : (l.dropWhile Char.isWhitespace).head? = some excl) :
    headingMatch l = none := by
  obtain ⟨t, ht⟩ : ∃ t, l.dropWhile Char.isWhitespace = excl :: t := by
    cases hc : l.dropWhile Char.isWhitespace with
    | nil => rw [hc] at h; simp at h
    | cons c t =>
      rw [hc] at h
      simp only [List.head?_cons, Option.some.injEq] at h
      exact ⟨t, by rw [h]⟩
  have heq : (excl == '=') = false := by decide
  simp only [headingMatch, ht]
  have htw : (excl :: t).takeWhile (fun c => c == '=') = [] := by
    simp [List.takeWhile_cons, heq]
  rw [htw]
  simp

/-- A line whose first non-blank character is the escape character never
matches the list rule: no marker alternative starts with it. -/
theorem listMatch_escaped (l : List Char)
    (h : (l.dropWhile Char.isWhitespace).head? = some excl) :
    listMatch l = none := by
  obtain ⟨t, ht⟩ : ∃ t, l.dropWhile Char.isWhitespace = excl :: t := by
    cases hc : l.dropWhile Char.isWhitespace with
    | nil => rw [hc] at h; simp at h
    | cons c t =>
      rw [hc] at h
      simp only [List.head?_cons, Option.some.injEq] at h
      exact ⟨t, by rw [h]⟩
  have hdrop : l.drop (l.takeWhile Char.isWhitespace).length = excl :: t := by
    rw [drop_takeWhile_length]; exact ht
  simp only [listMatch, hdrop]
  have hmk : markerMatch (excl :: t) = none := by
    have hdg : excl.isDigit = false := by decide
    have hal : excl.isAlpha = false := by decide
    have hrc : romanChar excl = false := by decide
    have hd : digitsAlt (excl :: t) = none := by
      simp [digitsAlt, List.takeWhile_cons, hdg]
    have hl2 : letterAlt (excl :: t) = none := by
      cases t with
      | nil => rfl
      | cons d t2 => simp [letterAlt, hal]
    have hr : romanAlt (excl :: t) = none := by
      simp [romanAlt, List.takeWhile_cons, hrc, romanDotSearch]
    have hne : ¬ (excl = '-' ∨ excl = '*') := by decide
    simp [markerMatch, hne, hd, hl2, hr]
  rw [hmk]
  simp

/-! ## Claim C1 -/

/-- C1 counterexample: the bold token is a markup token of a rule, yet
prefixing it with the escape character does not emit it literally with the
escape stripped and does not leave the toggle state unchanged: the bold
pattern carries no escape form, so the escape character stays in the
output as plain text, the bold handler still runs and the bold frame is
pushed. -/
theorem c1_escape_counterexample :
    subLine (fun _ _ => "") [] ("!" ++ quotes 3) = ("!<strong>", [boldF]) ∧
    subLine (fun _ _ => "") [] ("!" ++ quotes 3) ≠ (quotes 3, ([] : List Frame)) := by
  refine ⟨rfl, ?_⟩
  have h : subLine (fun _ _ => "") [] ("!" ++ quotes 3) =
      ("!<strong>", [boldF]) := rfl
  rw [h]
  decide

/-- C1 amended: the escape mechanism works exactly for the rules whose
pattern source carries the optional leading escape character — underline,
strike, subscript, superscript, both inline-code forms, short links, long
links and macros: the escaped token is emitted literally minus the escape
character, no handler runs (the output does not depend on the abstracted
link and macro handlers) and the toggle stack is unchanged.  The bold,
italic and combined bold-italic patterns carry no escape form: the escape
character stays literal text and the toggle handler still fires on the
following token.  The line-anchored heading and list rules cannot match a
line whose first non-blank character is the escape character, so there
the escape character is not stripped and the escaped lines pass through
unchanged; the two matchers do fire on the unescaped lines. -/
theorem c1_escape_amended (ext : RuleName → String → String) (stack : List Frame) :
    subLine ext stack "!__" = ("__", stack) ∧
    subLine ext stack "!~~" = ("~~", stack) ∧
    subLine ext stack "!,," = (",,", stack) ∧
    subLine ext stack "!^" = ("^", stack) ∧
    subLine ext stack (String.mk (excl :: startBlock ++ "code".toList ++ endBlock)) =
      (String.mk (startBlock ++ "code".toList ++ endBlock), stack) ∧
    subLine ext stack (String.mk (excl :: btick :: "code".toList ++ [btick])) =
      (String.mk (btick :: "code".toList ++ [btick]), stack) ∧
    subLine ext stack "!wiki:SomePage" = ("wiki:SomePage", stack) ∧
    subLine ext stack "![wiki:SomePage label]" = ("[wiki:SomePage label]", stack) ∧
    subLine ext stack "![wiki:SomePage]" = ("[wiki:SomePage]", stack) ∧
    subLine ext stack "![[HelloWorld]]" = ("[[HelloWorld]]", stack) ∧
    subLine ext stack "![[HelloWorld(arg)]]" = ("[[HelloWorld(arg)]]", stack) ∧
    subLine ext stack ("!" ++ quotes 3) =
      ("!" ++ (bold_formatter stack).1, (bold_formatter stack).2) ∧
    subLine ext stack ("!" ++ quotes 2) =
      ("!" ++ (italic_formatter stack).1, (italic_formatter stack).2) ∧
    subLine ext stack ("!" ++ quotes 5) =
      ("!" ++ (bolditalic_formatter stack).1, (bolditalic_formatter stack).2) ∧
    (∀ l : List Char, (l.dropWhile Char.isWhitespace).head? = some excl →
      headingMatch l = none) ∧
    (∀ l : List Char, (l.dropWhile Char.isWhitespace).head? = some excl →
      listMatch l = none) ∧
    subLine ext stack "!= h =" = ("!= h =", stack) ∧
    subLine ext stack "!  - x" = ("!  - x", stack) ∧
    headingMatch "= h =".toList = some 1 ∧
    listMatch " - x".toList = some " - ".toList :=
  ⟨rfl, rfl, rfl, rfl, rfl, rfl, rfl, rfl, rfl, rfl, rfl, rfl, rfl, rfl,
   headingMatch_escaped, listMatch_escaped, rfl, rfl, by decide, by decide⟩

/-- Witness for C1 amended: the anchored-rule conjuncts applied to the
escaped heading and list lines. -/
theorem c1_escape_amended_witness :
    headingMatch "!= h =".toList = none ∧ listMatch "!  - x".toList = none := by
  have h := c1_escape_amended (fun _ _ => "") []
  exact ⟨h.2.2.2.2.2.2.2.2.2.2.2.2.2.2.1 "!= h =".toList (by decide),
    h.2.2.2.2.2.2.2.2.2.2.2.2.2.2.2.1 "!  - x".toList (by decide)⟩


/-! ## Claim C7 -/

/-- C7 counterexample: handling the combined bold-italic token on an empty
stack leaves the italic frame open although it was not open before, so
the italic frame is not open exactly when it was open before the handler
ran. -/
theorem c7_bolditalic_counterexample :
    (bolditalic_formatter []).2.contains italicF = true ∧
    ([] : List Frame).contains italicF = false := by
  decide

/-- C7 amended: on a well-formed toggle stack the combined bold-italic
token toggles the bold pair and also toggles the italic frame: an open
italic frame is closed before the bold toggle and not reopened, a closed
one is opened after it, so afterwards the italic frame is open exactly
when it was closed before. -/
theorem c7_bolditalic_amended (st : List Frame) (h : WfToggleStack st) :
    (bolditalic_formatter st).2.contains italicF = !(st.contains italicF) ∧
    (bolditalic_formatter st).2.contains boldF = !(st.contains boldF) := by
  obtain ⟨hnd, hknown⟩ := h
  have hinj : ∀ f ∈ knownFrames, ∀ g ∈ knownFrames, f.2 = g.2 → f = g := by decide
  have hi : ∀ f ∈ st, f.2 = italicF.2 → f = italicF :=
    fun f hf => hinj f (hknown f hf) italicF (by decide)
  have hb : ∀ f ∈ st, f.2 = boldF.2 → f = boldF :=
    fun f hf => hinj f (hknown f hf) boldF (by decide)
  have hbe : ∀ f ∈ st.erase italicF, f.2 = boldF.2 → f = boldF :=
    fun f hf => hb f (List.mem_of_mem_erase hf)
  have hbi : boldF ≠ italicF := by decide
  have hstack := bolditalic_stack st hi hb hbe
  by_cases hio : italicF ∈ st
  · rw [if_pos hio] at hstack
    have hioc : st.contains italicF = true := by
      simp [List.contains, List.elem_iff, hio]
    by_cases hbo : boldF ∈ st
    · have hbo1 : boldF ∈ st.erase italicF := by
        rw [hnd.mem_erase_iff]; exact ⟨hbi, hbo⟩
      rw [if_pos hbo1] at hstack
      have hboc : st.contains boldF = true := by
        simp [List.contains, List.elem_iff, hbo]
      rw [hstack, hioc, hboc]
      constructor
      · simp only [Bool.not_true, List.contains, List.elem_eq_mem,
          decide_eq_false_iff_not]
        exact fun hm => hnd.not_mem_erase (List.mem_of_mem_erase hm)
      · simp only [Bool.not_true, List.contains, List.elem_eq_mem,
          decide_eq_false_iff_not]
        exact (hnd.erase italicF).not_mem_erase
    · have hbo1 : boldF ∉ st.erase italicF :=
        fun hm => hbo (List.mem_of_mem_erase hm)
      rw [if_neg hbo1] at hstack
      have hboc : st.contains boldF = false := by
        simp [List.contains, List.elem_iff, hbo]
      rw [hstack, hioc, hboc]
      constructor
      · simp only [Bool.not_true, List.contains, List.elem_eq_mem,
          decide_eq_false_iff_not, List.mem_cons, not_or]
        exact ⟨fun he => hbi he.symm, hnd.not_mem_erase⟩
      · simp [List.contains, List.elem_iff]
  · rw [if_neg hio] at hstack
    have hioc : st.contains italicF = false := by
      simp [List.contains, List.elem_iff, hio]
    by_cases hbo : boldF ∈ st
    · rw [if_pos hbo] at hstack
      have hboc : st.contains boldF = true := by
        simp [List.contains, List.elem_iff, hbo]
      rw [hstack, hioc, hboc]
      constructor
      · simp [List.contains, List.elem_iff]
      · simp only [Bool.not_true, List.contains, List.elem_eq_mem,
          decide_eq_false_iff_not, List.mem_cons, not_or]
        exact ⟨hbi, hnd.not_mem_erase⟩
    · rw [if_neg hbo] at hstack
      have hboc : st.contains boldF = false := by
        simp [List.contains, List.elem_iff, hbo]
      rw [hstack, hioc, hboc]
      constructor
      · simp [List.contains, List.elem_iff]
      · simp [List.contains, List.elem_iff]

/-- Witness for C7 amended: on the stack holding exactly one open italic
frame, the combined token closes it and opens the bold frame. -/
theorem c7_bolditalic_amended_witness :
    WfToggleStack [italicF] ∧
    ((bolditalic_formatter [italicF]).2.contains italicF =
        !(([italicF] : List Frame).contains italicF) ∧
      (bolditalic_formatter [italicF]).2.contains boldF =
        !(([italicF] : List Frame).contains boldF)) :=
  ⟨by constructor <;> decide, c7_bolditalic_amended [italicF] (by constructor <;> decide)⟩

end TracWiki
